import Mathlib

/-!
Shallow embedding of the pagination / retry / cache / error-classification
core of the `evergreen.py` client library (`src/evergreen/api.py`), together
with theorems settling the specification claims about it.

Conventions of the embedding:
* HTTP responses are modelled by `MockResponse`: a status code plus an
  optional JSON object body (`none` models a body that fails to parse as
  JSON, i.e. a `JSONDecodeError`).  JSON objects are association lists from
  string keys to string values, which is all the error-classification path
  inspects.
* Failures raised by the Python code are values of `Except` types.
* A server reached through a chain of `"next"` links is modelled by the list
  of its pages in link order: the response for page `i` carries a `"next"`
  link exactly when a page `i + 1` exists, which is the situation every
  claim describes.
* Python generators are modelled by total functions that simulate running
  the generator until a given demand is met, additionally reporting how many
  network calls the generator body performed before suspending.
-/

namespace Evergreen

/-- Constant from `api.py`: `CACHE_SIZE = 5000`. -/
def CACHE_SIZE : Nat := 5000

/-- Constant from `api.py`: `DEFAULT_LIMIT = 100`. -/
def DEFAULT_LIMIT : Nat := 100

/-- Constant from `api.py`: `MAX_RETRIES = 3`. -/
def MAX_RETRIES : Nat := 3

/-! ## Error classification (`EvergreenApi._raise_for_status`, `_call_api`) -/

/-- The two failure shapes distinguishable in `_raise_for_status`:
`serverReported` is the `requests.exceptions.HTTPError(json_data["error"], ...)`
raised explicitly with the server's message, `httpStatus` is the generic
failure raised by `response.raise_for_status()`. -/
inductive ApiError where
  | serverReported (msg : String)
  | httpStatus (status : Nat)
deriving DecidableEq, Repr

/-- A response as seen by `_raise_for_status`: its status code and its body.
`body = none` models a body on which `response.json()` raises
`JSONDecodeError`; `body = some obj` models a successfully parsed JSON
object given as an association list. -/
structure MockResponse where
  status_code : Nat
  body : Option (List (String × String))
deriving DecidableEq, Repr

/-- Key lookup in a parsed JSON object (`json_data["error"]` and
`"error" in json_data`). -/
def jsonLookup (obj : List (String × String)) (k : String) : Option String :=
  (obj.find? (fun e => e.1 == k)).map (fun e => e.2)

/-- External collaborator `requests.Response.raise_for_status()`: raises a
generic `HTTPError` exactly when the status code is an error code (≥ 400;
real HTTP status codes are below 600, which the claims never exercise). -/
def requestsRaiseForStatus (status : Nat) : Except ApiError Unit :=
  if 400 ≤ status then Except.error (ApiError.httpStatus status) else Except.ok ()

/-- `EvergreenApi._raise_for_status` (api.py lines 183–197): try to parse the
body as JSON; if the status is ≥ 400 and the parsed object has an `"error"`
key, raise an `HTTPError` carrying that message (this propagates past the
`except JSONDecodeError` handler); a parse failure is swallowed; finally
`response.raise_for_status()` runs. -/
def raise_for_status (r : MockResponse) : Except ApiError Unit :=
  match r.body with
  | some obj =>
    match jsonLookup obj "error" with
    | some msg =>
      if 400 ≤ r.status_code then Except.error (ApiError.serverReported msg)
      else requestsRaiseForStatus r.status_code
    | none => requestsRaiseForStatus r.status_code
  | none => requestsRaiseForStatus r.status_code

/-- `EvergreenApi._call_api` (api.py lines 143–165), restricted to the part
visible to the claims: issue the request, classify the response with
`_raise_for_status`, and return the response unchanged when no failure is
raised. -/
def call_api (r : MockResponse) : Except ApiError MockResponse :=
  match raise_for_status r with
  | Except.error e => Except.error e
  | Except.ok _ => Except.ok r

/-! ## Eager pagination (`EvergreenApi._paginate`, api.py lines 199–216)

The server is a chain of pages; the response currently held by the loop has
a `"next"` link exactly when further pages remain, so the loop state is the
list of remaining pages.  `paginateGo` is the `while "next" in
response.links` loop: `acc` is `json_data`, `calls` counts `_call_api`
invocations so far, `limit` is `params["limit"]` when `params` carries one.
-/

/-- The `while` loop of `_paginate`: stop when the current response has no
`"next"` link (`rest = []`); otherwise, if a `limit` param is set and the
accumulated count has reached it, `break`; otherwise fetch the next page and
extend `json_data` with it when it is non-empty. -/
def paginateGo {α : Type} (limit : Option Nat) :
    List α → Nat → List (List α) → List α × Nat
  | acc, calls, [] => (acc, calls)
  | acc, calls, p :: rest =>
    match limit with
    | some k =>
      if k ≤ acc.length then (acc, calls)
      else paginateGo limit (if p.isEmpty then acc else acc ++ p) (calls + 1) rest
    | none => paginateGo limit (if p.isEmpty then acc else acc ++ p) (calls + 1) rest

/-- `EvergreenApi._paginate` run against a chain server whose first response
holds `first` and whose later pages are `rest`.  Returns the accumulated
items together with the total number of `_call_api` calls made. -/
def paginate {α : Type} (limit : Option Nat) (first : List α) (rest : List (List α)) :
    List α × Nat :=
  paginateGo limit first 1 rest

theorem paginateGo_nolimit {α : Type} (rest : List (List α)) :
    ∀ (acc : List α) (calls : Nat),
      paginateGo none acc calls rest = (acc ++ rest.flatten, calls + rest.length) := by
  induction rest with
  | nil => intro acc calls; simp [paginateGo]
  | cons p rest ih =>
    intro acc calls
    by_cases hp : p.isEmpty
    · have hpe : p = [] := List.isEmpty_iff.mp hp
      simp [paginateGo, hp, ih, hpe, Nat.add_comm, Nat.add_assoc, Nat.add_left_comm]
    · simp [paginateGo, hp, ih, List.append_assoc, Nat.add_comm, Nat.add_assoc,
        Nat.add_left_comm]

/-- **C1.** `fetch_all` (`_paginate`) with no limit set: for every chain of
pages linked by `"next"` links, the result is the concatenation of all
pages' items in server order (an empty page contributes nothing and does not
terminate the loop), and one call is made per page in the chain.  In
particular, with an empty page inserted between page 2 and page 3 of a
four-page chain, the result is the concatenation of the three non-empty
pages and 4 ≥ 3 calls are made. -/
theorem paginate_concatenates_all_pages {α : Type}
    (first p2 p3 : List α) (rest : List (List α)) :
    paginate none first rest = (first ++ rest.flatten, 1 + rest.length) ∧
    paginate none first [p2, [], p3] = (first ++ (p2 ++ p3), 4) ∧
    3 ≤ (paginate none first [p2, [], p3]).2 := by
  refine ⟨?_, ?_, ?_⟩
  · simp [paginate, paginateGo_nolimit, Nat.add_comm]
  · simp [paginate, paginateGo_nolimit]
  · simp [paginate, paginateGo_nolimit]

/-- **C2.** Error classification: when the status is ≥ 400 and the body is a
JSON object with an `"error"` key, the raised failure is `serverReported`
with exactly that message (the generic status-based path is not taken); when
the status is ≥ 400 and the body is not JSON, or is JSON without an
`"error"` key, the generic `httpStatus` failure is raised — a JSON-parse
failure never masks the HTTP failure. -/
theorem raise_for_status_classification :
    (∀ (r : MockResponse) (obj : List (String × String)) (msg : String),
      r.body = some obj → jsonLookup obj "error" = some msg → 400 ≤ r.status_code →
      raise_for_status r = Except.error (ApiError.serverReported msg)) ∧
    (∀ r : MockResponse, r.body = none → 400 ≤ r.status_code →
      raise_for_status r = Except.error (ApiError.httpStatus r.status_code)) ∧
    (∀ (r : MockResponse) (obj : List (String × String)),
      r.body = some obj → jsonLookup obj "error" = none → 400 ≤ r.status_code →
      raise_for_status r = Except.error (ApiError.httpStatus r.status_code)) := by
  refine ⟨?_, ?_, ?_⟩
  · intro r obj msg hb hl hs
    simp [raise_for_status, hb, hl, hs]
  · intro r hb hs
    simp [raise_for_status, requestsRaiseForStatus, hb, hs]
  · intro r obj hb hl hs
    simp [raise_for_status, requestsRaiseForStatus, hb, hl, hs]

/-- Witness for C2: a 404 with body `{"error": "boom"}` raises the server's
message verbatim; a 500 with a non-JSON body and a 404 with JSON lacking an
`"error"` key both raise the generic status failure. -/
theorem raise_for_status_classification_witness :
    raise_for_status ⟨404, some [("error", "boom")]⟩ =
      Except.error (ApiError.serverReported "boom") ∧
    raise_for_status ⟨500, none⟩ = Except.error (ApiError.httpStatus 500) ∧
    raise_for_status ⟨404, some [("banner", "hi")]⟩ =
      Except.error (ApiError.httpStatus 404) :=
  ⟨raise_for_status_classification.1 ⟨404, some [("error", "boom")]⟩ _ _ rfl (by decide)
      (by decide),
   raise_for_status_classification.2.1 ⟨500, none⟩ rfl (by decide),
   raise_for_status_classification.2.2 ⟨404, some [("banner", "hi")]⟩ _ rfl (by decide)
      (by decide)⟩

/-- **C10.** For every response with status < 400, `_call_api` returns the
response without raising, even when the body is a JSON object containing an
`"error"` key: classification raises only on status ≥ 400. -/
theorem call_api_returns_response_below_400 (r : MockResponse)
    (h : r.status_code < 400) : call_api r = Except.ok r := by
  have h4 : ¬ 400 ≤ r.status_code := by omega
  unfold call_api raise_for_status requestsRaiseForStatus
  cases hb : r.body with
  | none => simp [h4]
  | some obj =>
    cases hl : jsonLookup obj "error" with
    | none => simp [h4, hl]
    | some msg => simp [h4, hl]

/-- Witness for C10: a 200 response whose JSON body even contains an
`"error"` key is returned unchanged. -/
theorem call_api_returns_response_below_400_witness :
    call_api ⟨200, some [("error", "looks scary")]⟩ =
      Except.ok ⟨200, some [("error", "looks scary")]⟩ :=
  call_api_returns_response_below_400 ⟨200, some [("error", "looks scary")]⟩ (by decide)

theorem paginateGo_limit_length_lt {α : Type} (K S : Nat)
    (rest : List (List α)) (hrest : ∀ p ∈ rest, p.length ≤ S) :
    ∀ (acc : List α) (calls : Nat), acc.length < K + S →
      (paginateGo (some K) acc calls rest).1.length < K + S := by
  induction rest with
  | nil => intro acc calls hacc; simpa [paginateGo] using hacc
  | cons p rest ih =>
    intro acc calls hacc
    have hp : p.length ≤ S := hrest p (List.mem_cons_self p rest)
    have hrest' : ∀ q ∈ rest, q.length ≤ S := fun q hq => hrest q (List.mem_cons_of_mem p hq)
    by_cases hk : K ≤ acc.length
    · simpa [paginateGo, hk] using hacc
    · have hlt : acc.length < K := Nat.lt_of_not_ge hk
      by_cases he : p.isEmpty
      · simpa [paginateGo, hk, he] using ih hrest' acc (calls + 1) hacc
      · have : (acc ++ p).length < K + S := by
          simp only [List.length_append]; omega
        simpa [paginateGo, hk, he] using ih hrest' (acc ++ p) (calls + 1) this

theorem paginateGo_limit_calls_le {α : Type} (K S : Nat) (hS : 1 ≤ S) :
    ∀ (rest : List (List α)), (∀ p ∈ rest, p.length = S) →
      ∀ (acc : List α) (calls : Nat),
        (paginateGo (some K) acc calls rest).2 ≤
          calls + (K - acc.length + S - 1) / S := by
  intro rest
  induction rest with
  | nil => intro _ acc calls; simp [paginateGo]
  | cons p rest ih =>
    intro hrest acc calls
    have hp : p.length = S := hrest p (List.mem_cons_self p rest)
    have hrest' : ∀ q ∈ rest, q.length = S := fun q hq => hrest q (List.mem_cons_of_mem p hq)
    by_cases hk : K ≤ acc.length
    · simp [paginateGo, hk]
    · have hlt : acc.length < K := Nat.lt_of_not_ge hk
      have he : ¬ p.isEmpty := by
        intro hemp
        have : p = [] := List.isEmpty_iff.mp hemp
        rw [this] at hp; simp at hp; omega
      have hstep := ih hrest' (acc ++ p) (calls + 1)
      have harith : calls + 1 + (K - (acc ++ p).length + S - 1) / S ≤
          calls + (K - acc.length + S - 1) / S := by
        have hlen : (acc ++ p).length = acc.length + S := by
          simp [List.length_append, hp]
        rw [hlen]
        set a := acc.length with ha
        have hd : 1 ≤ K - a := by omega
        by_cases hds : K - a ≤ S
        · have h1 : K - (a + S) = 0 := by omega
          have h2 : (0 + S - 1) / S = 0 := Nat.div_eq_of_lt (by omega)
          have h3 : 1 ≤ (K - a + S - 1) / S :=
            (Nat.one_le_div_iff (by omega)).mpr (by omega)
          rw [h1, h2]
          omega
        · have h1 : K - (a + S) + S - 1 = K - a - 1 := by omega
          have h2 : K - a + S - 1 = (K - a - 1) + S := by omega
          rw [h1, h2, Nat.add_div_right _ (by omega : 0 < S)]
          omega
      have := Nat.le_trans hstep harith
      simpa [paginateGo, hk, he] using this

/-- **C7.** `fetch_all` (`_paginate`) with `params["limit"] = K`, on a chain
of pages each of size `S`: the loop stops following `"next"` links once the
accumulated count has reached `K` — in particular when the first page
already reaches `K`, exactly one call is made even if more pages exist; the
check runs only between full-page fetches, so the returned count may exceed
`K`, but by less than one page (`length < K + S`); and the number of calls
is bounded by `1 + ⌈(K - S)/S⌉`, which is fewer than the full page count
whenever enough pages exist. -/
theorem paginate_limit_behavior {α : Type} (K S : Nat)
    (first : List α) (rest : List (List α)) (hK : 1 ≤ K) (hS : 1 ≤ S)
    (hfirst : first.length = S) (hrest : ∀ p ∈ rest, p.length = S) :
    (paginate (some K) first rest).1.length < K + S ∧
    (K ≤ first.length → paginate (some K) first rest = (first, 1)) ∧
    (paginate (some K) first rest).2 ≤ 1 + (K - S + S - 1) / S := by
  refine ⟨?_, ?_, ?_⟩
  · exact paginateGo_limit_length_lt K S rest
      (fun p hp => Nat.le_of_eq (hrest p hp)) first 1 (by omega)
  · intro hKfirst
    cases rest with
    | nil => simp [paginate, paginateGo]
    | cons p rest => simp [paginate, paginateGo, hKfirst]
  · have := paginateGo_limit_calls_le K S hS rest hrest first 1
    simpa [paginate, hfirst] using this

/-- Witness for C7: four pages of two items, limit K = 3.  The run stops
after 2 calls (fewer than the 4 available pages), returning 4 items — more
than K but fewer than K plus a page. -/
theorem paginate_limit_behavior_witness :
    (1 ≤ 3 ∧ 1 ≤ 2 ∧
      paginate (some 3) [0, 1] [[2, 3], [4, 5], [6, 7]] = ([0, 1, 2, 3], 2)) ∧
    ((paginate (some 3) [0, 1] [[2, 3], [4, 5], [6, 7]]).1.length < 3 + 2 ∧
      (paginate (some 3) [0, 1] [[2, 3], [4, 5], [6, 7]]).2 ≤ 1 + (3 - 2 + 2 - 1) / 2) := by
  have h := paginate_limit_behavior 3 2 [0, 1] [[2, 3], [4, 5], [6, 7]]
    (by decide) (by decide) (by decide) (by decide)
  exact ⟨⟨by decide, by decide, by decide⟩, h.1, h.2.2⟩

/-! ## Retry (`RetryingEvergreenApi._call_api`, api.py lines 958–983)

The tenacity decorator is configured with
`retry_if_exception_type((HTTPError, ConnectionError))`,
`stop_after_attempt(MAX_RETRIES)` and `reraise=True`: an attempt that raises
one of the two listed exception types is retried while fewer than
`MAX_RETRIES` attempts have been made; any other exception propagates at
once; after the last allowed attempt the last exception is re-raised
unchanged.  The wrapped call is modelled by a function from the attempt
number (1-based) to that attempt's outcome. -/

/-- Failure kinds reaching the retry decorator:
`requests.exceptions.HTTPError`, `requests.exceptions.ConnectionError`, and
anything else (e.g. a malformed-argument / configuration failure). -/
inductive ReqError where
  | httpError (msg : String)
  | connectionError
  | configurationError (msg : String)
deriving DecidableEq, Repr

/-- `retry_if_exception_type((HTTPError, ConnectionError))`. -/
def isRetryable : ReqError → Bool
  | ReqError.httpError _ => true
  | ReqError.connectionError => true
  | ReqError.configurationError _ => false

/-- The tenacity retry loop: run attempt `attempt`; on success return the
result with the attempt count; on failure, if no retries remain or the
failure kind does not match, surface the failure unchanged with the attempt
count; otherwise move to the next attempt. -/
def runWithRetries {α : Type} (f : Nat → Except ReqError α) :
    Nat → Nat → Except ReqError α × Nat
  | attempt, remaining =>
    match f attempt with
    | Except.ok a => (Except.ok a, attempt)
    | Except.error e =>
      match remaining with
      | 0 => (Except.error e, attempt)
      | r + 1 =>
        if isRetryable e then runWithRetries f (attempt + 1) r
        else (Except.error e, attempt)

/-- `RetryingEvergreenApi._call_api`: the underlying `_call_api` wrapped with
at most `MAX_RETRIES` attempts.  Returns the surfaced outcome together with
the number of attempts actually made. -/
def retrying_call_api {α : Type} (f : Nat → Except ReqError α) :
    Except ReqError α × Nat :=
  runWithRetries f 1 (MAX_RETRIES - 1)

/-- **C3.** The retrying `_call_api` retries only on HTTP-status and
connection failures and makes at most 3 attempts: two retryable failures
followed by success yield the success result after exactly 3 attempts;
three consecutive failures (the first two retryable) surface the third
failure unchanged after exactly 3 attempts, with no 4th attempt; a
non-matching failure kind (a configuration failure) surfaces after exactly
1 attempt. -/
theorem retrying_call_api_behavior {α : Type} (f : Nat → Except ReqError α) :
    (∀ (e1 e2 : ReqError) (a : α), isRetryable e1 = true → isRetryable e2 = true →
      f 1 = Except.error e1 → f 2 = Except.error e2 → f 3 = Except.ok a →
      retrying_call_api f = (Except.ok a, 3)) ∧
    (∀ e1 e2 e3 : ReqError, isRetryable e1 = true → isRetryable e2 = true →
      f 1 = Except.error e1 → f 2 = Except.error e2 → f 3 = Except.error e3 →
      retrying_call_api f = (Except.error e3, 3)) ∧
    (∀ m : String, f 1 = Except.error (ReqError.configurationError m) →
      retrying_call_api f = (Except.error (ReqError.configurationError m), 1)) := by
  refine ⟨?_, ?_, ?_⟩
  · intro e1 e2 a hr1 hr2 h1 h2 h3
    simp [retrying_call_api, MAX_RETRIES, runWithRetries, h1, h2, h3, hr1, hr2]
  · intro e1 e2 e3 hr1 hr2 h1 h2 h3
    simp [retrying_call_api, MAX_RETRIES, runWithRetries, h1, h2, h3, hr1, hr2]
  · intro m h1
    simp [retrying_call_api, MAX_RETRIES, runWithRetries, h1, isRetryable]

/-- Attempt outcomes for the C3 witness: two HTTP failures then success. -/
def retrySeqA : Nat → Except ReqError Nat := fun n =>
  if n ≤ 2 then Except.error (ReqError.httpError "bad gateway") else Except.ok 42

/-- Attempt outcomes for the C3 witness: a connection failure, an HTTP
failure, then a third distinct HTTP failure. -/
def retrySeqB : Nat → Except ReqError Nat := fun n =>
  match n with
  | 1 => Except.error ReqError.connectionError
  | 2 => Except.error (ReqError.httpError "second")
  | _ => Except.error (ReqError.httpError "third")

/-- Attempt outcomes for the C3 witness: a configuration failure at once. -/
def retrySeqC : Nat → Except ReqError Nat := fun _ =>
  Except.error (ReqError.configurationError "bad args")

/-- Witness for C3: the three scenarios of the claim at concrete attempt
sequences — success after exactly 3 attempts, the third failure re-raised
unchanged after exactly 3 attempts, and a configuration failure after
exactly 1 attempt. -/
theorem retrying_call_api_behavior_witness :
    retrying_call_api retrySeqA = (Except.ok 42, 3) ∧
    retrying_call_api retrySeqB = (Except.error (ReqError.httpError "third"), 3) ∧
    retrying_call_api retrySeqC =
      (Except.error (ReqError.configurationError "bad args"), 1) :=
  ⟨(retrying_call_api_behavior retrySeqA).1 (ReqError.httpError "bad gateway")
      (ReqError.httpError "bad gateway") 42 rfl rfl rfl rfl rfl,
   (retrying_call_api_behavior retrySeqB).2.1 ReqError.connectionError
      (ReqError.httpError "second") (ReqError.httpError "third") rfl rfl rfl rfl rfl,
   (retrying_call_api_behavior retrySeqC).2.2 "bad args" rfl⟩

/-! ## Lazy link-cursor pagination (`EvergreenApi._lazy_paginate`,
api.py lines 218–242)

The generator loops: call the current URL, stop on an empty page, yield the
page's items one by one, stop when the response has no `"next"` link,
otherwise continue from the `"next"` URL.  Being a Python generator, its
body does not run at all until the consumer requests the first item, and it
suspends at each `yield`.  `lazyGo pages m` simulates resuming the
generator over the chain `pages` until `m` further items have been yielded
(or the generator finishes), returning the yielded items and the number of
`_call_api` calls performed during that simulation. -/

def lazyGo {α : Type} : List (List α) → Nat → List α × Nat
  | [], _ => ([], 0)
  | p :: rest, m =>
    if p.isEmpty then ([], 1)
    else if m ≤ p.length then (p.take m, 1)
    else
      match rest with
      | [] => (p, 1)
      | q :: rest' =>
        let r := lazyGo (q :: rest') (m - p.length)
        (p ++ r.1, 1 + r.2)

/-- Consuming the first `M` items of `_lazy_paginate` over the chain
`pages`: no generator code runs when nothing is demanded. -/
def lazy_paginate_take {α : Type} (pages : List (List α)) (M : Nat) :
    List α × Nat :=
  if M = 0 then ([], 0) else lazyGo pages M

theorem lazyGo_calls_le {α : Type} (S : Nat) (hS : 1 ≤ S) :
    ∀ (pages : List (List α)), (∀ p ∈ pages, p.length = S) →
      ∀ M, 1 ≤ M → (lazyGo pages M).2 ≤ (M + S - 1) / S := by
  intro pages
  induction pages with
  | nil => intro _ M _; simp [lazyGo]
  | cons p rest ih =>
    intro hpages M hM
    have hp : p.length = S := hpages p (List.mem_cons_self p rest)
    have hrest : ∀ q ∈ rest, q.length = S := fun q hq => hpages q (List.mem_cons_of_mem p hq)
    have he : ¬ p.isEmpty := by
      intro hemp
      have : p = [] := List.isEmpty_iff.mp hemp
      rw [this] at hp; simp at hp; omega
    have hone : 1 ≤ (M + S - 1) / S := (Nat.one_le_div_iff (by omega)).mpr (by omega)
    by_cases hm : M ≤ p.length
    · rw [lazyGo.eq_def]
      simpa [he, hm] using hone
    · cases rest with
      | nil =>
        rw [lazyGo.eq_def]
        simpa [he, hm] using hone
      | cons q rest' =>
        have hMS : S < M := by omega
        have hrec := ih hrest (M - p.length) (by omega)
        have harith : 1 + (M - p.length + S - 1) / S ≤ (M + S - 1) / S := by
          rw [hp]
          have h1 : M - S + S - 1 = M - 1 := by omega
          have h2 : M + S - 1 = (M - 1) + S := by omega
          rw [h1, h2, Nat.add_div_right _ (by omega : 0 < S)]
          omega
        calc (lazyGo (p :: q :: rest') M).2
            = 1 + (lazyGo (q :: rest') (M - p.length)).2 := by
              rw [lazyGo.eq_def]
              simp [he, hm]
          _ ≤ 1 + (M - p.length + S - 1) / S := by omega
          _ ≤ (M + S - 1) / S := harith

/-- **C4.** `iterate` (`_lazy_paginate`) is pull-driven: zero demand issues
zero calls, and for every `M ≥ 1`, consuming only the first `M` items of a
chain whose pages all have size `S` issues at most `⌈M / S⌉` calls. -/
theorem lazy_paginate_pull_driven {α : Type} (S M : Nat)
    (pages : List (List α)) (hS : 1 ≤ S) (hM : 1 ≤ M)
    (hpages : ∀ p ∈ pages, p.length = S) :
    (lazy_paginate_take pages 0).2 = 0 ∧
    (lazy_paginate_take pages M).2 ≤ (M + S - 1) / S := by
  constructor
  · simp [lazy_paginate_take]
  · have hM0 : M ≠ 0 := by omega
    have := lazyGo_calls_le S hS pages hpages M hM
    simpa [lazy_paginate_take, hM0] using this

/-- Witness for C4: three pages of two items each; taking the first 3 items
issues 2 = ⌈3/2⌉ calls and taking none issues no call. -/
theorem lazy_paginate_pull_driven_witness :
    (lazy_paginate_take [[0, 1], [2, 3], [4, 5]] 0).2 = 0 ∧
    (lazy_paginate_take [[0, 1], [2, 3], [4, 5]] 3).2 ≤ (3 + 2 - 1) / 2 :=
  lazy_paginate_pull_driven 2 3 [[0, 1], [2, 3], [4, 5]] (by decide) (by decide)
    (by decide)

/-! ## Lazy date-cursor pagination (`EvergreenApi._lazy_paginate_by_date`,
api.py lines 244–263)

The generator loops: call `url` with the current params, stop on an empty
page, yield the page's items, then set `params["start_at"]` to
`evergreen_input_to_output(data[-1]["create_time"])` and repeat.

`evergreen_input_to_output` is imported from `evergreen/util.py`, which is
not among the source files; the spec says only that it produces "a
normalized string form of the creation timestamp" of the last item.  It is
therefore kept abstract: every definition below takes the normalization
function `normalize` as an explicit argument (modelled from the spec).

The server is a function from the current `start_at` value (`none` before
any page was consumed) to the page it returns.  The loop terminates only on
an empty page, so a fuel argument bounds how many iterations are observed;
besides the yielded items, the simulation records the `start_at` value sent
with each request, in order. -/

/-- One JSON item of a date-paginated endpoint: the only field the loop
reads is `"create_time"`. -/
structure DateItem where
  create_time : String
deriving DecidableEq, Repr

/-- `EvergreenApi._lazy_paginate_by_date` over `server`, observed for `fuel`
iterations: returns the yielded items and the list of `start_at` parameter
values sent, one per `_call_api` call. -/
def lazy_paginate_by_date (normalize : String → String)
    (server : Option String → List DateItem) :
    Nat → Option String → List DateItem × List (Option String)
  | 0, _ => ([], [])
  | fuel + 1, start_at =>
    let data := server start_at
    match data.getLast? with
    | none => ([], [start_at])
    | some lastItem =>
      let r := lazy_paginate_by_date normalize server fuel
        (some (normalize lastItem.create_time))
      (data ++ r.1, start_at :: r.2)

theorem lazy_paginate_by_date_trace_head (normalize : String → String)
    (server : Option String → List DateItem) (f : Nat) (p : Option String) :
    ((lazy_paginate_by_date normalize server (f + 1) p).2).head? = some p := by
  rw [lazy_paginate_by_date.eq_def]
  cases h : (server p).getLast? with
  | none => simp [h]
  | some lastItem => simp [h]

theorem head?_take_one {α : Type} (l : List α) (a : α) (h : l.head? = some a) :
    l.take 1 = [a] := by
  cases l with
  | nil => simp at h
  | cons x xs => simp at h; simp [h]

/-- **C5.** `iterate_by_date` (`_lazy_paginate_by_date`): when the page
fetched with cursor `p` is non-empty with last item `l`, the next request is
sent with `start_at` equal to the normalized form of `l.create_time` — the
first two requests of the run are exactly `[p, normalize l.create_time]`;
and when that second page is empty, iteration stops there: all of the first
page's items are yielded and exactly two requests are made (a third page is
never fetched). -/
theorem lazy_paginate_by_date_cursor (normalize : String → String)
    (server : Option String → List DateItem) (p : Option String)
    (l : DateItem) (f : Nat) (h : (server p).getLast? = some l) :
    ((lazy_paginate_by_date normalize server (f + 2) p).2.take 2 =
      [p, some (normalize l.create_time)]) ∧
    (server (some (normalize l.create_time)) = [] →
      lazy_paginate_by_date normalize server (f + 2) p =
        (server p, [p, some (normalize l.create_time)])) := by
  have hstep : lazy_paginate_by_date normalize server (f + 2) p =
      (server p ++ (lazy_paginate_by_date normalize server (f + 1)
          (some (normalize l.create_time))).1,
        p :: (lazy_paginate_by_date normalize server (f + 1)
          (some (normalize l.create_time))).2) := by
    conv_lhs => rw [lazy_paginate_by_date.eq_def]
    simp [h]
  constructor
  · rw [hstep]
    have hhead := lazy_paginate_by_date_trace_head normalize server f
      (some (normalize l.create_time))
    rw [List.take_cons]
    rw [head?_take_one _ _ hhead]
    omega
  · intro hempty
    rw [hstep]
    rw [lazy_paginate_by_date.eq_def]
    simp [hempty]

/-- Server for the C5 witness: the initial request returns two items with
creation times `"a"` and `"b"`; every dated request returns an empty page. -/
def dateServerW : Option String → List DateItem := fun p =>
  match p with
  | none => [DateItem.mk "a", DateItem.mk "b"]
  | some _ => []

/-- Witness for C5: with normalization `s ↦ s ++ "Z"`, the run sends
`start_at = "bZ"` (the normalized creation time of the last item of page 1)
on its second request, and stops after observing that the second page is
empty. -/
theorem lazy_paginate_by_date_cursor_witness :
    ((dateServerW none).getLast? = some (DateItem.mk "b")) ∧
    ((lazy_paginate_by_date (fun s => s ++ "Z") dateServerW 2 none).2.take 2 =
      [none, some "bZ"]) ∧
    (lazy_paginate_by_date (fun s => s ++ "Z") dateServerW 2 none =
      ([DateItem.mk "a", DateItem.mk "b"], [none, some "bZ"])) := by
  have h : (dateServerW none).getLast? = some (DateItem.mk "b") := rfl
  have := lazy_paginate_by_date_cursor (fun s => s ++ "Z") dateServerW none
    (DateItem.mk "b") 0 h
  exact ⟨h, this.1, this.2 rfl⟩

/-- **C6 counterexample.** The code does not enforce strictly-forward cursor
movement: against a server that always returns the same single item with
creation time `"2020"`, the run issues successive requests with identical
`start_at` values (`some "2020"` twice in a row), each fetching the same
non-empty page — the cursor does not advance and the loop re-fetches the
same page for as long as it is observed. -/
theorem lazy_paginate_by_date_cursor_can_stall :
    (lazy_paginate_by_date id (fun _ => [DateItem.mk "2020"]) 3 none).2 =
      [none, some "2020", some "2020"] ∧
    (fun (_ : Option String) => [DateItem.mk "2020"]) (some "2020") ≠ [] :=
  ⟨rfl, by simp⟩

/-- **C6 (amended).** Cursor advancement is conditional on the server's
data: for any relation `R` on cursor values, if every non-empty page's
normalized last-item creation time is `R`-above the cursor that fetched it,
then the successive `start_at` values of a run form an `R`-chain (so with
`R` a strict order — or mere distinctness — the cursor moves strictly
forward and the same page is never re-fetched with the same cursor). -/
theorem lazy_paginate_by_date_cursor_chain (normalize : String → String)
    (server : Option String → List DateItem)
    (R : Option String → Option String → Prop)
    (hadv : ∀ (p : Option String) (l : DateItem), (server p).getLast? = some l →
      R p (some (normalize l.create_time))) :
    ∀ (fuel : Nat) (p : Option String),
      List.Chain' R (lazy_paginate_by_date normalize server fuel p).2 := by
  intro fuel
  induction fuel with
  | zero => intro p; simp [lazy_paginate_by_date]
  | succ f ih =>
    intro p
    rw [lazy_paginate_by_date.eq_def]
    cases h : (server p).getLast? with
    | none => simp [h]
    | some l =>
      simp only [h]
      rw [List.chain'_cons']
      refine ⟨?_, ih (some (normalize l.create_time))⟩
      intro b hb
      cases f with
      | zero => simp [lazy_paginate_by_date] at hb
      | succ f' =>
        rw [lazy_paginate_by_date_trace_head] at hb
        cases hb
        exact hadv p l h

/-- Witness for C6 (amended): for the witness server, every non-empty page
advances the cursor to a value distinct from the one that fetched it, so
the request trace of any run is a chain of pairwise-distinct successive
cursors. -/
theorem lazy_paginate_by_date_cursor_chain_witness :
    List.Chain' (fun a b => a ≠ b)
      (lazy_paginate_by_date (fun s => s ++ "Z") dateServerW 2 none).2 :=
  lazy_paginate_by_date_cursor_chain (fun s => s ++ "Z") dateServerW
    (fun a b => a ≠ b)
    (by
      intro p l h
      cases p with
      | none =>
        simp [dateServerW] at h
        simp [h]
      | some s => simp [dateServerW] at h)
    2 none

/-! ## Time-window filtering (`versions_by_project_time_window`,
api.py lines 395–415) -/

/-- An item of a lazily paginated sequence as the time-window filter sees
it: its timestamp attribute (e.g. `create_time`) interpreted as a time
value, plus an opaque payload. -/
structure TimedItem where
  ts : Int
  payload : Nat
deriving DecidableEq, Repr

/-- Modelled from the spec: `iterate_by_time_window` is defined in
`evergreen/util.py`, which is not among the source files — only its call
site `versions_by_project_time_window` is.  Per spec §4.2, it consumes the
lazy sequence item by item and "filters/stops based on a named timestamp
attribute of each item compared against an inclusive/exclusive
`[after, before)`-style window", stopping consumption "as soon as it
observes an item strictly before the window's lower bound".  The second
component counts how many items were pulled from the underlying lazy
sequence (which is what bounds the pages fetched). -/
def iterate_by_time_window : List TimedItem → Int → Int → List TimedItem × Nat
  | [], _, _ => ([], 0)
  | x :: rest, b, a =>
    if x.ts < a then ([], 1)
    else
      ((if x.ts < b then x :: (iterate_by_time_window rest b a).1
        else (iterate_by_time_window rest b a).1),
       (iterate_by_time_window rest b a).2 + 1)

/-- **C8.** On a sequence delivered in descending timestamp order, the
time-window filter returns exactly the items whose timestamp lies in
`[after, before)`, and it stops consuming the underlying sequence as soon as
it observes an item strictly before `after`: the number of items pulled is
the length of the leading run of items with timestamp ≥ `after`, plus one
for the item that crossed the bound (when one exists). -/
theorem iterate_by_time_window_filters (items : List TimedItem)
    (b a : Int) (hdesc : List.Pairwise (fun x y => y.ts ≤ x.ts) items) :
    (iterate_by_time_window items b a).1 =
      items.filter (fun x => decide (a ≤ x.ts ∧ x.ts < b)) ∧
    (iterate_by_time_window items b a).2 =
      min items.length ((items.takeWhile (fun x => decide (a ≤ x.ts))).length + 1) := by
  induction items with
  | nil => simp [iterate_by_time_window]
  | cons x rest ih =>
    have hx : ∀ y ∈ rest, y.ts ≤ x.ts := (List.pairwise_cons.mp hdesc).1
    have htl : List.Pairwise (fun x y => y.ts ≤ x.ts) rest :=
      (List.pairwise_cons.mp hdesc).2
    have ih' := ih htl
    by_cases ha : x.ts < a
    · constructor
      · have h2 : List.filter (fun x => decide (a ≤ x.ts ∧ x.ts < b)) (x :: rest) = [] := by
          rw [List.filter_eq_nil_iff]
          intro y hy
          simp only [decide_eq_true_eq, not_and, not_lt]
          intro hay
          rcases List.mem_cons.mp hy with h | h
          · rw [h] at hay; omega
          · have := hx y h; omega
        rw [iterate_by_time_window, if_pos ha, h2]
      · have htw : List.takeWhile (fun x => decide (a ≤ x.ts)) (x :: rest) = [] := by
          rw [List.takeWhile_cons]
          simp only [decide_eq_true_eq]
          rw [if_neg (by omega)]
        rw [iterate_by_time_window, if_pos ha, htw]
        simp only [List.length_nil, List.length_cons]
        omega
    · have ha' : a ≤ x.ts := by omega
      constructor
      · rw [iterate_by_time_window, if_neg ha, List.filter_cons]
        by_cases hb : x.ts < b
        · have hd : decide (a ≤ x.ts ∧ x.ts < b) = true := by
            simp only [decide_eq_true_eq]; exact ⟨ha', hb⟩
          simp only [hd, if_pos hb, if_true]
          simp [ih'.1]
        · have hd : decide (a ≤ x.ts ∧ x.ts < b) = false := by
            simp only [decide_eq_false_iff_not]; omega
          simp only [hd, if_neg hb, Bool.false_eq_true, if_false]
          simp [ih'.1]
      · have htw : List.takeWhile (fun x => decide (a ≤ x.ts)) (x :: rest) =
            x :: List.takeWhile (fun x => decide (a ≤ x.ts)) rest := by
          rw [List.takeWhile_cons]
          simp only [decide_eq_true_eq]
          rw [if_pos ha']
        rw [iterate_by_time_window, if_neg ha, htw]
        simp only [List.length_cons]
        have := ih'.2
        simp only [this]
        omega

/-- Witness for C8: timestamps `[10, 8, 6, 4, 2]` (descending), window
`[5, 9)`: exactly the items at 8 and 6 are returned, and only 4 of the 5
items are consumed — consumption stops at the item with timestamp 4. -/
theorem iterate_by_time_window_filters_witness :
    (iterate_by_time_window
        [⟨10, 0⟩, ⟨8, 1⟩, ⟨6, 2⟩, ⟨4, 3⟩, ⟨2, 4⟩] 9 5).1 =
      [⟨8, 1⟩, ⟨6, 2⟩] ∧
    (iterate_by_time_window
        [⟨10, 0⟩, ⟨8, 1⟩, ⟨6, 2⟩, ⟨4, 3⟩, ⟨2, 4⟩] 9 5).2 = 4 := by
  have h := iterate_by_time_window_filters
    [⟨10, 0⟩, ⟨8, 1⟩, ⟨6, 2⟩, ⟨4, 3⟩, ⟨2, 4⟩] 9 5 (by decide)
  exact ⟨by rw [h.1]; decide, by rw [h.2]; decide⟩

/-! ## Cached variant (`CachedEvergreenApi`, api.py lines 904–943)

`CachedEvergreenApi` overrides exactly `build_by_id` and `version_by_id`,
each wrapped in `functools.lru_cache(maxsize=CACHE_SIZE)`, and
`clear_caches` calls `cache_clear()` on both.  The external `lru_cache`
collaborator is modelled as a memo table kept most-recently-used-first: a
hit returns the stored value and refreshes its recency without running the
wrapped method; a miss runs the wrapped method (one network call), inserts
the result at the front and keeps at most `CACHE_SIZE` entries, dropping
the least recently used one. -/

/-- The observable state of a `CachedEvergreenApi`: its two memo tables and
a count of network calls issued by the wrapped lookups. -/
structure CachedApi (B V : Type) where
  buildCache : List (String × B)
  versionCache : List (String × V)
  networkCalls : Nat

/-- A freshly constructed `CachedEvergreenApi`: empty tables, no calls. -/
def initialCachedApi {B V : Type} : CachedApi B V := ⟨[], [], 0⟩

/-- One `lru_cache`-wrapped invocation against a memo table: returns the
value, the updated table, and whether the wrapped method ran (a miss). -/
def lruCall {V : Type} (cache : List (String × V)) (compute : String → V)
    (k : String) : V × List (String × V) × Bool :=
  match cache.find? (fun e => e.1 == k) with
  | some e => (e.2, (k, e.2) :: cache.eraseP (fun e => e.1 == k), false)
  | none => (compute k, ((k, compute k) :: cache).take CACHE_SIZE, true)

/-- `CachedEvergreenApi.build_by_id`: the `lru_cache`-wrapped lookup, with
`fetchBuild` standing for the superclass network fetch. -/
def build_by_id {B V : Type} (fetchBuild : String → B) (s : CachedApi B V)
    (k : String) : B × CachedApi B V :=
  match lruCall s.buildCache fetchBuild k with
  | (v, c, miss) =>
    (v, { s with buildCache := c,
                 networkCalls := s.networkCalls + (if miss then 1 else 0) })

/-- `CachedEvergreenApi.version_by_id`: the `lru_cache`-wrapped lookup, with
`fetchVersion` standing for the superclass network fetch. -/
def version_by_id {B V : Type} (fetchVersion : String → V) (s : CachedApi B V)
    (k : String) : V × CachedApi B V :=
  match lruCall s.versionCache fetchVersion k with
  | (v, c, miss) =>
    (v, { s with versionCache := c,
                 networkCalls := s.networkCalls + (if miss then 1 else 0) })

/-- `CachedEvergreenApi.clear_caches`: `cache_clear()` on both wrapped
lookups. -/
def clear_caches {B V : Type} (s : CachedApi B V) : CachedApi B V :=
  { s with buildCache := [], versionCache := [] }

/-- **C9.** The cached variant: two `build_by_id` calls with the same id
issue exactly one network call and both return the fetched entity; the same
holds for `version_by_id`; `clear_caches` empties both tables, and a
subsequent `build_by_id` with the same id issues a new network call; the
table capacity is `CACHE_SIZE = 5000` and a wrapped call never grows a
table beyond it. -/
theorem cached_api_memoizes {B V : Type} (fetchBuild : String → B)
    (fetchVersion : String → V) (k : String) :
    (build_by_id fetchBuild (initialCachedApi (B := B) (V := V)) k).1 = fetchBuild k ∧
    (build_by_id fetchBuild (build_by_id fetchBuild (initialCachedApi (B := B) (V := V)) k).2 k).1 =
      fetchBuild k ∧
    (build_by_id fetchBuild (build_by_id fetchBuild (initialCachedApi (B := B) (V := V)) k).2 k).2.networkCalls = 1 ∧
    (version_by_id fetchVersion
      (version_by_id fetchVersion (initialCachedApi (B := B) (V := V)) k).2 k).2.networkCalls = 1 ∧
    (clear_caches (build_by_id fetchBuild (build_by_id fetchBuild (initialCachedApi (B := B) (V := V)) k).2 k).2).buildCache = [] ∧
    (clear_caches (build_by_id fetchBuild (build_by_id fetchBuild (initialCachedApi (B := B) (V := V)) k).2 k).2).versionCache = [] ∧
    (build_by_id fetchBuild
      (clear_caches (build_by_id fetchBuild (build_by_id fetchBuild (initialCachedApi (B := B) (V := V)) k).2 k).2) k).2.networkCalls = 2 ∧
    CACHE_SIZE = 5000 ∧
    (∀ (s : CachedApi B V) (k2 : String), s.buildCache.length ≤ CACHE_SIZE →
      (build_by_id fetchBuild s k2).2.buildCache.length ≤ CACHE_SIZE) := by
  have htake : ∀ (W : Type) (w : W), ((k, w) :: ([] : List (String × W))).take CACHE_SIZE
      = [(k, w)] := by
    intro W w
    apply List.take_of_length_le
    simp [CACHE_SIZE]
  have hfind : ∀ (W : Type) (w : W),
      List.find? (fun e => e.1 == k) [(k, w)] = some (k, w) := by
    intro W w
    simp [List.find?]
  have h1 : build_by_id fetchBuild (initialCachedApi (B := B) (V := V)) k =
      (fetchBuild k, ⟨[(k, fetchBuild k)], [], 1⟩) := by
    simp [build_by_id, lruCall, initialCachedApi, htake]
  have h2 : build_by_id fetchBuild
      (⟨[(k, fetchBuild k)], [], 1⟩ : CachedApi B V) k =
      (fetchBuild k, ⟨[(k, fetchBuild k)], [], 1⟩) := by
    simp [build_by_id, lruCall, hfind, List.eraseP_cons_of_pos]
  have hv1 : version_by_id fetchVersion (initialCachedApi (B := B) (V := V)) k =
      (fetchVersion k, ⟨[], [(k, fetchVersion k)], 1⟩) := by
    simp [version_by_id, lruCall, initialCachedApi, htake]
  have hv2 : version_by_id fetchVersion
      (⟨[], [(k, fetchVersion k)], 1⟩ : CachedApi B V) k =
      (fetchVersion k, ⟨[], [(k, fetchVersion k)], 1⟩) := by
    simp [version_by_id, lruCall, hfind, List.eraseP_cons_of_pos]
  have hclear : clear_caches (⟨[(k, fetchBuild k)], [], 1⟩ : CachedApi B V) =
      ⟨[], [], 1⟩ := by
    simp [clear_caches]
  have h3 : build_by_id fetchBuild (⟨[], [], 1⟩ : CachedApi B V) k =
      (fetchBuild k, ⟨[(k, fetchBuild k)], [], 2⟩) := by
    simp [build_by_id, lruCall, htake]
  refine ⟨?_, ?_, ?_, ?_, ?_, ?_, ?_, rfl, ?_⟩
  · rw [h1]
  · rw [h1, h2]
  · rw [h1, h2]
  · rw [hv1, hv2]
  · rw [h1, h2, hclear]
  · rw [h1, h2, hclear]
  · rw [h1, h2, hclear, h3]
  · intro s k2 hlen
    unfold build_by_id lruCall
    cases hf : s.buildCache.find? (fun e => e.1 == k2) with
    | none =>
      simp only [hf]
      calc (((k2, fetchBuild k2) :: s.buildCache).take CACHE_SIZE).length
          ≤ CACHE_SIZE := List.length_take_le _ _
    | some e =>
      have hmem := List.mem_of_find?_eq_some hf
      have hp := List.find?_some hf
      simp only [hf, List.length_cons]
      have := List.length_eraseP_add_one (p := fun e => e.1 == k2) hmem hp
      omega

/-- Witness for C9: with a constant fetch returning `7`, the double lookup
returns the entity with one network call, and a lookup after a clear makes
it two. -/
theorem cached_api_memoizes_witness :
    (build_by_id (fun _ => 7) (initialCachedApi (B := Nat) (V := Nat)) "b1").1 = 7 ∧
    (build_by_id (fun _ => 7)
      (build_by_id (fun _ => 7) (initialCachedApi (B := Nat) (V := Nat)) "b1").2
      "b1").2.networkCalls = 1 ∧
    (build_by_id (fun _ => 7)
      (clear_caches (build_by_id (fun _ => 7)
        (build_by_id (fun _ => 7) (initialCachedApi (B := Nat) (V := Nat)) "b1").2
        "b1").2) "b1").2.networkCalls = 2 :=
  ⟨(cached_api_memoizes (fun _ => 7) (fun _ => 9) "b1").1,
   (cached_api_memoizes (fun _ => 7) (fun _ => 9) "b1").2.2.1,
   (cached_api_memoizes (fun _ => 7) (fun _ => 9) "b1").2.2.2.2.2.2.1⟩

end Evergreen
